import Mathlib

/-!
Verification of the join/aggregate/regression pipeline of the
606Assignments repository (Next.js chart pages).  The TypeScript source is
shallowly embedded: JS numbers are modelled as exact real numbers (`ℝ`) for
the regression/significance module (which uses `Math.exp` and `Math.sqrt`)
and as exact rationals (`ℚ`) for the join/aggregation layer; JS strings are
modelled as `String` (with the CSV scanner's character loop running over
`List Char`); JS `Map`s are modelled as insertion-ordered association
lists; a JS value that may be `undefined`/`NaN` is modelled as an `Option`.
-/

namespace Assignments606

/-! ## Regression & significance module (src/unnamed/part_001 lines 60-110,
identical copy in src/unnamed/part_003).  JS floating point is modelled by
exact real arithmetic. -/

/-- Embeds the source's `ScatterPoint` interface: `{ x: number; y: number;
state: string }`. -/
structure ScatterPoint where
  x : ℝ
  y : ℝ
  state : String

/-- Embeds `normalCdf` (part_001 lines 66-72): the Zelen–Severo polynomial
approximation of the standard normal CDF. -/
noncomputable def normalCdf (z : ℝ) : ℝ :=
  let t := 1 / (1 + 0.2316419 * |z|)
  let d := 0.3989423 * Real.exp (-z * z / 2)
  let prob := d * t * (0.3193815 + t * (-0.3565638 + t * (1.781478 + t * (-1.821256 + t * 1.330274))))
  if z > 0 then 1 - prob else prob

/-- Embeds the source's anonymous regression-result record
`{ slope, intercept, r2, p, line }`; `line` is the two-point rendering
segment. -/
structure RegressionResult where
  slope : ℝ
  intercept : ℝ
  r2 : ℝ
  p : ℝ
  line : List (ℝ × ℝ)

/-- `xs = points.map(p => p.x)` (part_001 line 77). -/
def xsOf (points : List ScatterPoint) : List ℝ := points.map (·.x)

/-- `ys = points.map(p => p.y)` (part_001 line 78). -/
def ysOf (points : List ScatterPoint) : List ℝ := points.map (·.y)

/-- `xBar = xs.reduce((a,b) => a+b, 0) / n` (part_001 line 79). -/
noncomputable def xBar (points : List ScatterPoint) : ℝ :=
  (xsOf points).sum / points.length

/-- `yBar = ys.reduce((a,b) => a+b, 0) / n` (part_001 line 80). -/
noncomputable def yBar (points : List ScatterPoint) : ℝ :=
  (ysOf points).sum / points.length

/-- The `ssX` accumulator of the loop at part_001 lines 84-90
(`ssX += dx*dx` with `dx = xs[i] - xBar`), hoisted to its own fold. -/
noncomputable def ssX (points : List ScatterPoint) : ℝ :=
  points.foldl (fun a pt => a + (pt.x - xBar points) * (pt.x - xBar points)) 0

/-- The `ssY` accumulator of the same loop (`ssY += dy*dy`). -/
noncomputable def ssY (points : List ScatterPoint) : ℝ :=
  points.foldl (fun a pt => a + (pt.y - yBar points) * (pt.y - yBar points)) 0

/-- The `ssXY` accumulator of the same loop (`ssXY += dx*dy`). -/
noncomputable def ssXY (points : List ScatterPoint) : ℝ :=
  points.foldl
    (fun a pt => a + (pt.x - xBar points) * (pt.y - yBar points)) 0

/-- `slope = ssXY / ssX` (part_001 line 92). -/
noncomputable def slope (points : List ScatterPoint) : ℝ :=
  ssXY points / ssX points

/-- `intercept = yBar - slope * xBar` (part_001 line 93). -/
noncomputable def intercept (points : List ScatterPoint) : ℝ :=
  yBar points - slope points * xBar points

/-- The `sse` accumulator of the loop at part_001 lines 94-98
(`sse += (ys[i] - yHat) ** 2` with `yHat = slope * xs[i] + intercept`). -/
noncomputable def sse (points : List ScatterPoint) : ℝ :=
  points.foldl
    (fun a pt => a + (pt.y - (slope points * pt.x + intercept points)) ^ 2) 0

/-- `r2 = 1 - sse / ssY` (part_001 line 99). -/
noncomputable def r2Of (points : List ScatterPoint) : ℝ :=
  1 - sse points / ssY points

/-- `se = Math.sqrt((sse / (n - 2)) / ssX)` (part_001 line 100). -/
noncomputable def seOf (points : List ScatterPoint) : ℝ :=
  Real.sqrt ((sse points / ((points.length : ℝ) - 2)) / ssX points)

/-- `t = se === 0 ? 0 : slope / se` (part_001 line 101). -/
noncomputable def tStat (points : List ScatterPoint) : ℝ :=
  if seOf points = 0 then 0 else slope points / seOf points

/-- `p = 2 * (1 - normalCdf(Math.abs(t)))` (part_001 line 102). -/
noncomputable def pValue (points : List ScatterPoint) : ℝ :=
  2 * (1 - normalCdf |tStat points|)

/-- `Math.min(...xs)` for the nonempty `xs` arising in `computeRegression`
(the JS call returns `Infinity` on an empty array; that case is unreachable
behind the `n < 3` guard, and the embedding returns the junk value 0). -/
def listMin : List ℝ → ℝ
  | [] => 0
  | x :: xs => xs.foldl min x

/-- `Math.max(...xs)`, same conventions as `listMin`. -/
def listMax : List ℝ → ℝ
  | [] => 0
  | x :: xs => xs.foldl max x

/-- The two-point rendering segment of part_001 lines 103-108. -/
noncomputable def regLine (points : List ScatterPoint) : List (ℝ × ℝ) :=
  let minX := listMin (xsOf points)
  let maxX := listMax (xsOf points)
  [(minX, slope points * minX + intercept points),
   (maxX, slope points * maxX + intercept points)]

/-- Embeds `computeRegression` (part_001 lines 74-110): `null` becomes
`none`; the arithmetic of the loops is hoisted into the named folds
above. -/
noncomputable def computeRegression (points : List ScatterPoint) :
    Option RegressionResult :=
  if points.length < 3 then none
  else if ssX points = 0 ∨ ssY points = 0 then none
  else some
    { slope := slope points
      intercept := intercept points
      r2 := r2Of points
      p := pValue points
      line := regLine points }

/-- Embeds the caller's classification (part_001 line 381 / part_003 line
336): `relevant = reg ? reg.p < 0.05 && reg.r2 >= 0.1 : false`. -/
def isRelevant (reg : Option RegressionResult) : Prop :=
  match reg with
  | none => False
  | some r => r.p < 0.05 ∧ r.r2 ≥ 0.1

/-! ## Per-capita normalisation and window averages
(src/608/Story1/chartjs-nextjs/app/delta-biden/page.tsx lines 166-194, the
same pattern at src/unnamed/part_001 lines 334-355).  Obligation amounts,
populations and per-capita dollars are modelled as exact rationals. -/

/-- Embeds the per-year contribution `pop > 0 ? amt / pop : 0` inside the
window-average `reduce` loops (delta-biden page lines 181-183). -/
def perCapitaContribution (pop amt : ℚ) : ℚ :=
  if 0 < pop then amt / pop else 0

/-- Modelled from the spec: the standalone per-capita normalizer of §4.3
("returns obligation/population if population > 0, else returns
undefined") is absent as a named function in src/ — the source inlines the
zero-defaulted form `pop > 0 ? amt / pop : 0` in its window-average loops.
A missing population is `none`. -/
def perCapita (pop : Option ℚ) (amt : ℚ) : Option ℚ :=
  match pop with
  | none => none
  | some p => if 0 < p then some (amt / p) else none

/-- `const preYears = [2017, 2018, 2019, 2020]` (delta-biden page line 166). -/
def preYears : List ℕ := [2017, 2018, 2019, 2020]

/-- `const bidenYears = [2021, 2022, 2023, 2024]` (delta-biden page line 167). -/
def bidenYears : List ℕ := [2021, 2022, 2023, 2024]

/-- Embeds the window-average `reduce` of the delta-biden page lines
179-184: `years.reduce((s, fy) => s + (pop > 0 ? amt/pop : 0), 0) /
years.length`, where `pop = popMap.get(...) ?? 0` and
`amt = yearMaps[fy]?.get(st) ?? 0` (missing entries default to 0). -/
def windowAverage (years : List ℕ) (pop amt : ℕ → Option ℚ) : ℚ :=
  years.foldl
    (fun s fy => s + perCapitaContribution ((pop fy).getD 0) ((amt fy).getD 0)) 0
    / years.length

/-- Embeds `deltaByState.set(st, bidenAvg - preAvg)` (delta-biden page line
193): the delta of the two window averages for one state's lookups. -/
def deltaBidenPre (pop amt : ℕ → Option ℚ) : ℚ :=
  windowAverage bidenYears pop amt - windowAverage preYears pop amt

/-- Embeds the scatter-input construction of part_001 lines 334-355: for
each state compute the two window averages, skip the state when its margin
is undefined, and emit `(deltaPc, margin, st)`.  The source's
`Number.isFinite` guards are tautological in exact arithmetic, and the
winner-keyed grouping is flattened (as `buildChart` itself does before
calling `computeRegression`). -/
def scatterInputs (states : List String) (pop amt : String → ℕ → Option ℚ)
    (margins : String → Option ℚ) : List (ℚ × ℚ × String) :=
  states.filterMap (fun st =>
    match margins st with
    | none => none
    | some m => some (deltaBidenPre (pop st) (amt st), m, st))

/-! ## CSV scanning (src/unnamed/part_001 lines 206-262, identical copies
in part_003 and the iija page).  The character loop of `parseCSV` runs
over `List Char`; the field accumulator `cur` (a JS string built by
`cur += ch`) is modelled as the list of its characters. -/

/-- Embeds the scanner loop of `parseCSV` (part_001 lines 212-243) plus
its trailing flush (lines 245-248).  State: emitted `rows`, fields of the
current `row`, characters of the current field `cur`, and the `inQuotes`
flag; the remaining input is the explicit argument. -/
def parseCSVGo (rows : List (List String)) (row : List String)
    (cur : List Char) (inQuotes : Bool) : List Char → List (List String)
  | [] =>
      if cur ≠ [] ∨ row ≠ [] then rows ++ [row ++ [String.mk cur]] else rows
  | c :: cs =>
      if c = '"' then
        if inQuotes ∧ cs.head? = some '"' then
          parseCSVGo rows row (cur ++ ['"']) inQuotes cs.tail
        else
          parseCSVGo rows row cur (!inQuotes) cs
      else if c = ',' ∧ inQuotes = false then
        parseCSVGo rows (row ++ [String.mk cur]) [] inQuotes cs
      else if c = '\n' ∧ inQuotes = false then
        parseCSVGo (rows ++ [row ++ [String.mk cur]]) [] [] inQuotes cs
      else if c = '\r' then
        parseCSVGo rows row cur inQuotes cs
      else
        parseCSVGo rows row (cur ++ [c]) inQuotes cs
  termination_by l => l.length
  decreasing_by
    · simp only [List.length_cons]
      exact Nat.lt_succ_of_le (cs.length_tail ▸ Nat.sub_le cs.length 1)
    all_goals simp

/-- Embeds `parseCSV` (part_001 lines 206-251). -/
def parseCSV (text : String) : List (List String) :=
  parseCSVGo [] [] [] false text.toList

/-! ### Spec-side CSV encoder.  The repository has no CSV writer; these
definitions transcribe the spec's "standard CSV quoting rules"
(§4.2: double-quote escapes via doubled quote characters, fields may
contain embedded separators/newlines only inside quotes), to be compared
with `parseCSV` by round trip. -/

/-- Escape a field body: every literal `"` becomes `""`. -/
def escBody : List Char → List Char
  | [] => []
  | c :: cs => if c = '"' then '"' :: '"' :: escBody cs else c :: escBody cs

/-- A quoted field: `"` ++ escaped body ++ `"`. -/
def escFieldChars (f : String) : List Char :=
  '"' :: (escBody f.toList ++ ['"'])

/-- A row: quoted fields joined by commas. -/
def renderRowChars : List String → List Char
  | [] => []
  | [f] => escFieldChars f
  | f :: fs => escFieldChars f ++ ',' :: renderRowChars fs

/-- A table: rows joined by newlines. -/
def renderTableChars : List (List String) → List Char
  | [] => []
  | [r] => renderRowChars r
  | r :: rs => renderRowChars r ++ '\n' :: renderTableChars rs

/-- A table rendered per the spec's standard CSV quoting rules. -/
def renderTable (t : List (List String)) : String :=
  String.mk (renderTableChars t)

/-! ## Reference-table parsers (src/unnamed/part_001 lines 253-291,
src/unnamed/part_003 lines 218-248).  JS `Map`s become insertion-ordered
association lists; a cell read `r[idx]` that can be `undefined` becomes an
`Option String`; a JS number that can be `NaN` becomes an `Option ℚ`. -/

/-- `header.indexOf(name)` (part_001 lines 267-269): the index of the
first occurrence, or `-1` when the column name is absent. -/
def jsIndexOf (a : String) : List String → Int
  | [] => -1
  | b :: bs =>
      if b = a then 0
      else if jsIndexOf a bs = -1 then -1 else jsIndexOf a bs + 1

/-- `r[idx]` on a JS array: `undefined` (here `none`) for a negative or
out-of-range index. -/
def cellAt (r : List String) (i : Int) : Option String :=
  if 0 ≤ i then r[i.toNat]? else none

/-- Decimal value of a digit string, accumulator style; `none` when a
non-digit character occurs. -/
def digitsVal : List Char → ℕ → Option ℕ
  | [], acc => some acc
  | c :: cs, acc =>
      if c.isDigit then digitsVal cs (10 * acc + (c.toNat - 48)) else none

/-- Abstraction of the JS `Number()` coercion on the strings occurring in
the reference tables: the empty string coerces to 0 (as in JS), a string
of decimal digits to its value, and any other string to `NaN` (`none`).
(The full JS grammar of signed/decimal/exponent literals never occurs in
the vote-count and population cells these parsers read.) -/
def jsNum (s : String) : Option ℚ :=
  if s = "" then some 0 else (digitsVal s.toList 0).map (fun n => (n : ℚ))

/-- `Number(r[idx] || 0)` (part_001 lines 276-277): a missing or empty
cell coerces to 0, a non-numeric cell to `NaN`. -/
def numCell (c : Option String) : Option ℚ :=
  jsNum (c.getD "")

/-- `map.set(k, v)` on a JS `Map` modelled as an insertion-ordered
association list: update in place when the key exists, else append. -/
def setKey {α : Type} (m : List (String × α)) (k : String) (v : α) :
    List (String × α) :=
  if m.any (·.1 == k) then m.map (fun e => if e.1 = k then (k, v) else e)
  else m ++ [(k, v)]

/-- `map.get(k)` on a JS `Map` modelled as an association list. -/
def getKey? {α : Type} (m : List (String × α)) (k : String) : Option α :=
  (m.find? (·.1 == k)).map (·.2)

/-- `const st = r[idxSt]; if (!st) continue;` (part_001 lines 274-275):
the state cell when it is present and truthy (non-empty). -/
def stateCell (r : List String) (i : Int) : Option String :=
  match cellAt r i with
  | none => none
  | some s => if s = "" then none else some s

/-- One iteration of the accumulation loop of `mapHouseMargins` (part_001
lines 272-282): skip the row when its state cell is missing or empty,
else add the row's vote counts (`cur.dem += Number.isNaN(dem) ? 0 : dem`
modelled by `Option.getD 0`) to the state's running totals. -/
def aggStep (idxSt idxDem idxGop : Int) (totals : List (String × ℚ × ℚ))
    (r : List String) : List (String × ℚ × ℚ) :=
  match stateCell r idxSt with
  | none => totals
  | some st =>
    let dem := (numCell (cellAt r idxDem)).getD 0
    let gop := (numCell (cellAt r idxGop)).getD 0
    let cur := (getKey? totals st).getD (0, 0)
    setKey totals st (cur.1 + dem, cur.2 + gop)

/-- Embeds the accumulation loop of `mapHouseMargins` (part_001 lines
271-282): per-state `{dem, gop}` running totals over the data rows. -/
def aggregateTotals (idxSt idxDem idxGop : Int)
    (dataRows : List (List String)) : List (String × ℚ × ℚ) :=
  dataRows.foldl (aggStep idxSt idxDem idxGop) []

/-- Embeds `mapHouseMargins` (part_001 lines 264-291) after its `parseCSV`
call: header-name lookup, district-to-state accumulation, and the final
margin map `(dem - gop) / total` skipping states with `total === 0`. -/
def mapHouseMarginsRows (rows : List (List String)) : List (String × ℚ) :=
  let header := rows.headD []
  let totals := aggregateTotals (jsIndexOf "ST" header)
    (jsIndexOf "Votes_Dem_2024" header) (jsIndexOf "Votes_GOP_2024" header)
    (rows.drop 1)
  totals.filterMap (fun e =>
    if e.2.1 + e.2.2 = 0 then none
    else some (e.1, (e.2.1 - e.2.2) / (e.2.1 + e.2.2)))

/-- `mapHouseMargins(csvText)` (part_001 line 264): parse, then map. -/
def mapHouseMargins (csvText : String) : List (String × ℚ) :=
  mapHouseMarginsRows (parseCSV csvText)

/-- Embeds `mapPresMargins` (part_003 lines 229-248) after its `parseCSV`
call: one margin per data row, with no `Number.isNaN` guard — a
non-numeric vote cell makes `total` equal to `NaN`, the `total === 0`
check is then false, and the stored margin is `NaN` (`none`). -/
def mapPresMarginsRows (rows : List (List String)) :
    List (String × Option ℚ) :=
  let header := rows.headD []
  let idxSt := jsIndexOf "ST" header
  let idxDem := jsIndexOf "Votes_Dem_2024" header
  let idxGop := jsIndexOf "Votes_GOP_2024" header
  (rows.drop 1).foldl
    (fun out r =>
      match stateCell r idxSt with
      | none => out
      | some st =>
        match numCell (cellAt r idxDem), numCell (cellAt r idxGop) with
        | some dem, some gop =>
            if dem + gop = 0 then out
            else setKey out st (some ((dem - gop) / (dem + gop)))
        | _, _ => setKey out st none)
    []

/-- `mapPresMargins(csvText)` (part_003 line 229): parse, then map. -/
def mapPresMargins (csvText : String) : List (String × Option ℚ) :=
  mapPresMarginsRows (parseCSV csvText)

/-- JS `String.prototype.trim()` on the character list: strip leading and
trailing whitespace. -/
def trimChars (l : List Char) : List Char :=
  ((l.dropWhile Char.isWhitespace).reverse.dropWhile Char.isWhitespace).reverse

/-- JS `split(sep)` for a one-character separator, on the character list:
`""` splits to `[""]`, and a trailing separator yields a trailing empty
field, as in JS. -/
def splitOnChar (sep : Char) : List Char → List (List Char)
  | [] => [[]]
  | c :: cs =>
      if c = sep then [] :: splitOnChar sep cs
      else
        match splitOnChar sep cs with
        | [] => [[c]]
        | r :: rs => (c :: r) :: rs

/-- The `/\r?\n/` separator of `text.split(/\r?\n/)`: turn each CRLF pair
into a bare LF so that a subsequent split on LF matches the JS regex
split. -/
def dropCRLF : List Char → List Char
  | [] => []
  | '\r' :: '\n' :: cs => '\n' :: dropCRLF cs
  | c :: cs => c :: dropCRLF cs

/-- Embeds `parsePopulationCSV` (part_001 lines 253-262): `text.trim()`
split on `/\r?\n/`, each data line split on bare commas (no quote
handling), `if (!state || !fy) continue`, and `Number(pop)` stored under
the key `` `${state}-${fy}` `` (a missing third cell gives `NaN`).  JS
string operations are modelled on the character list. -/
def parsePopulationCSV (text : String) : List (String × Option ℚ) :=
  let lines := splitOnChar '\n' (dropCRLF (trimChars text.toList))
  (lines.drop 1).foldl
    (fun m line =>
      let parts := splitOnChar ',' line
      let state := (parts[0]?).getD []
      let fy := (parts[1]?).getD []
      if state = [] ∨ fy = [] then m
      else
        setKey m (String.mk state ++ "-" ++ String.mk fy)
          (match parts[2]? with
           | none => none
           | some s => jsNum (String.mk s)))
    []

/-! ## Spec-side regression formulas (§4.5 of the spec), transcribed from
the spec's words for comparison with the embedded `computeRegression`. -/

/-- Spec: x̄ = (Σ xᵢ)/n. -/
noncomputable def specXBar (pts : List ScatterPoint) : ℝ :=
  (pts.map (·.x)).sum / pts.length

/-- Spec: ȳ = (Σ yᵢ)/n. -/
noncomputable def specYBar (pts : List ScatterPoint) : ℝ :=
  (pts.map (·.y)).sum / pts.length

/-- Spec: Sxx = Σ (xᵢ − x̄)². -/
noncomputable def specSxx (pts : List ScatterPoint) : ℝ :=
  (pts.map fun p => (p.x - specXBar pts) ^ 2).sum

/-- Spec: Syy = Σ (yᵢ − ȳ)². -/
noncomputable def specSyy (pts : List ScatterPoint) : ℝ :=
  (pts.map fun p => (p.y - specYBar pts) ^ 2).sum

/-- Spec: Sxy = Σ (xᵢ − x̄)(yᵢ − ȳ). -/
noncomputable def specSxy (pts : List ScatterPoint) : ℝ :=
  (pts.map fun p => (p.x - specXBar pts) * (p.y - specYBar pts)).sum

/-- Spec: slope = Sxy/Sxx. -/
noncomputable def specSlope (pts : List ScatterPoint) : ℝ :=
  specSxy pts / specSxx pts

/-- Spec: intercept = ȳ − slope·x̄. -/
noncomputable def specIntercept (pts : List ScatterPoint) : ℝ :=
  specYBar pts - specSlope pts * specXBar pts

/-- Spec: SSE = Σ (yᵢ − ŷ(xᵢ))² for the fitted line. -/
noncomputable def specSSE (pts : List ScatterPoint) : ℝ :=
  (pts.map fun p => (p.y - (specSlope pts * p.x + specIntercept pts)) ^ 2).sum

/-- Spec: standard error of the slope sqrt((SSE/(n−2))/Sxx). -/
noncomputable def specSE (pts : List ScatterPoint) : ℝ :=
  Real.sqrt ((specSSE pts / ((pts.length : ℝ) - 2)) / specSxx pts)

/-! ## Helper lemmas -/

theorem foldl_add_map {α M : Type} [AddCommMonoid M] (f : α → M) :
    ∀ (l : List α) (a : M), l.foldl (fun s x => s + f x) a = a + (l.map f).sum
  | [], a => by simp
  | x :: xs, a => by
      simp only [List.foldl_cons, List.map_cons, List.sum_cons]
      rw [foldl_add_map f xs (a + f x), add_assoc]

theorem xBar_eq_spec (pts : List ScatterPoint) : xBar pts = specXBar pts := rfl

theorem yBar_eq_spec (pts : List ScatterPoint) : yBar pts = specYBar pts := rfl

theorem ssX_eq_spec (pts : List ScatterPoint) : ssX pts = specSxx pts := by
  rw [ssX, foldl_add_map, zero_add, specSxx, xBar_eq_spec]
  congr 1
  exact List.map_congr_left fun p _ => by ring

theorem ssY_eq_spec (pts : List ScatterPoint) : ssY pts = specSyy pts := by
  rw [ssY, foldl_add_map, zero_add, specSyy, yBar_eq_spec]
  congr 1
  exact List.map_congr_left fun p _ => by ring

theorem ssXY_eq_spec (pts : List ScatterPoint) : ssXY pts = specSxy pts := by
  rw [ssXY, foldl_add_map, zero_add, specSxy, xBar_eq_spec, yBar_eq_spec]

theorem slope_eq_spec (pts : List ScatterPoint) : slope pts = specSlope pts := by
  rw [slope, specSlope, ssXY_eq_spec, ssX_eq_spec]

theorem intercept_eq_spec (pts : List ScatterPoint) :
    intercept pts = specIntercept pts := by
  rw [intercept, specIntercept, slope_eq_spec, xBar_eq_spec, yBar_eq_spec]

theorem sse_eq_spec (pts : List ScatterPoint) : sse pts = specSSE pts := by
  rw [sse, foldl_add_map, zero_add, specSSE, slope_eq_spec, intercept_eq_spec]

theorem seOf_eq_spec (pts : List ScatterPoint) : seOf pts = specSE pts := by
  rw [seOf, specSE, sse_eq_spec, ssX_eq_spec]

theorem foldl_min_mem (xs : List ℝ) : ∀ (a : ℝ), xs.foldl min a ∈ a :: xs := by
  induction xs with
  | nil => intro a; simp
  | cons y ys ih =>
      intro a
      have h := ih (min a y)
      simp only [List.foldl_cons]
      rcases List.mem_cons.mp h with h1 | h1
      · rcases min_choice a y with he | he
        · rw [h1, he]; exact List.mem_cons_self a _
        · rw [h1, he]; exact List.mem_cons.mpr (Or.inr (List.mem_cons_self y _))
      · exact List.mem_cons.mpr (Or.inr (List.mem_cons.mpr (Or.inr h1)))

theorem foldl_min_le (xs : List ℝ) :
    ∀ (b : ℝ), xs.foldl min b ≤ b ∧ ∀ y ∈ xs, xs.foldl min b ≤ y := by
  induction xs with
  | nil => intro b; simp
  | cons y ys ih =>
      intro b
      obtain ⟨h1, h2⟩ := ih (min b y)
      simp only [List.foldl_cons]
      refine ⟨le_trans h1 (min_le_left b y), fun z hz => ?_⟩
      rcases List.mem_cons.mp hz with h3 | h3
      · subst h3; exact le_trans h1 (min_le_right b z)
      · exact h2 z h3

theorem foldl_max_mem (xs : List ℝ) : ∀ (a : ℝ), xs.foldl max a ∈ a :: xs := by
  induction xs with
  | nil => intro a; simp
  | cons y ys ih =>
      intro a
      have h := ih (max a y)
      simp only [List.foldl_cons]
      rcases List.mem_cons.mp h with h1 | h1
      · rcases max_choice a y with he | he
        · rw [h1, he]; exact List.mem_cons_self a _
        · rw [h1, he]; exact List.mem_cons.mpr (Or.inr (List.mem_cons_self y _))
      · exact List.mem_cons.mpr (Or.inr (List.mem_cons.mpr (Or.inr h1)))

theorem foldl_le_max (xs : List ℝ) :
    ∀ (b : ℝ), b ≤ xs.foldl max b ∧ ∀ y ∈ xs, y ≤ xs.foldl max b := by
  induction xs with
  | nil => intro b; simp
  | cons y ys ih =>
      intro b
      obtain ⟨h1, h2⟩ := ih (max b y)
      simp only [List.foldl_cons]
      refine ⟨le_trans (le_max_left b y) h1, fun z hz => ?_⟩
      rcases List.mem_cons.mp hz with h3 | h3
      · subst h3; exact le_trans (le_max_right b z) h1
      · exact h2 z h3

theorem listMin_mem : ∀ (l : List ℝ), l ≠ [] → listMin l ∈ l
  | [], h => absurd rfl h
  | x :: xs, _ => by simpa [listMin] using foldl_min_mem xs x

theorem listMin_le : ∀ (l : List ℝ), ∀ x ∈ l, listMin l ≤ x
  | [], x, hx => absurd hx (List.not_mem_nil x)
  | a :: xs, x, hx => by
      rcases List.mem_cons.mp hx with h1 | h1
      · simpa [listMin, h1] using (foldl_min_le xs a).1
      · simpa [listMin] using (foldl_min_le xs a).2 x h1

theorem listMax_mem : ∀ (l : List ℝ), l ≠ [] → listMax l ∈ l
  | [], h => absurd rfl h
  | x :: xs, _ => by simpa [listMax] using foldl_max_mem xs x

theorem le_listMax : ∀ (l : List ℝ), ∀ x ∈ l, x ≤ listMax l
  | [], x, hx => absurd hx (List.not_mem_nil x)
  | a :: xs, x, hx => by
      rcases List.mem_cons.mp hx with h1 | h1
      · simpa [listMax, h1] using (foldl_le_max xs a).1
      · simpa [listMax] using (foldl_le_max xs a).2 x h1

theorem specSxx_nonneg (pts : List ScatterPoint) : 0 ≤ specSxx pts := by
  apply List.sum_nonneg
  intro a ha
  obtain ⟨p, _, rfl⟩ := List.mem_map.mp ha
  exact sq_nonneg _

theorem specSyy_nonneg (pts : List ScatterPoint) : 0 ≤ specSyy pts := by
  apply List.sum_nonneg
  intro a ha
  obtain ⟨p, _, rfl⟩ := List.mem_map.mp ha
  exact sq_nonneg _

theorem specSSE_nonneg (pts : List ScatterPoint) : 0 ≤ specSSE pts := by
  apply List.sum_nonneg
  intro a ha
  obtain ⟨p, _, rfl⟩ := List.mem_map.mp ha
  exact sq_nonneg _

theorem sum_centered_sq (l : List ScatterPoint) (m cx cy : ℝ) :
    (l.map fun p => ((p.y - cy) - m * (p.x - cx)) ^ 2).sum =
      (l.map fun p => (p.y - cy) ^ 2).sum
        - 2 * m * (l.map fun p => (p.x - cx) * (p.y - cy)).sum
        + m ^ 2 * (l.map fun p => (p.x - cx) ^ 2).sum := by
  induction l with
  | nil => simp
  | cons p ps ih =>
      simp only [List.map_cons, List.sum_cons]
      rw [ih]
      ring

theorem specSSE_expand (pts : List ScatterPoint) :
    specSSE pts = specSyy pts - 2 * specSlope pts * specSxy pts
      + specSlope pts ^ 2 * specSxx pts := by
  have hpt : ∀ p ∈ pts,
      (p.y - (specSlope pts * p.x + specIntercept pts)) ^ 2 =
        ((p.y - specYBar pts) - specSlope pts * (p.x - specXBar pts)) ^ 2 := by
    intro p _
    rw [specIntercept]
    ring
  rw [specSSE, List.map_congr_left hpt, sum_centered_sq, specSyy, specSxy, specSxx]

theorem specSSE_identity (pts : List ScatterPoint) (hx : specSxx pts ≠ 0) :
    specSSE pts = specSyy pts - specSxy pts ^ 2 / specSxx pts := by
  rw [specSSE_expand, specSlope]
  field_simp
  ring

theorem sum_map_const_of_all {α : Type} (l : List α) (f : α → ℝ) (c : ℝ)
    (h : ∀ a ∈ l, f a = c) : (l.map f).sum = l.length * c := by
  induction l with
  | nil => simp
  | cons a as ih =>
      simp only [List.map_cons, List.sum_cons, List.length_cons]
      rw [h a (List.mem_cons_self a as),
        ih (fun b hb => h b (List.mem_cons.mpr (Or.inr hb)))]
      push_cast
      ring

theorem computeRegression_elim {pts : List ScatterPoint} {r : RegressionResult}
    (h : computeRegression pts = some r) :
    ¬pts.length < 3 ∧ ssX pts ≠ 0 ∧ ssY pts ≠ 0 ∧
      r = ⟨slope pts, intercept pts, r2Of pts, pValue pts, regLine pts⟩ := by
  by_cases h3 : pts.length < 3
  · simp [computeRegression, h3] at h
  by_cases hx : ssX pts = 0 ∨ ssY pts = 0
  · simp [computeRegression, h3, hx] at h
  push_neg at hx
  refine ⟨h3, hx.1, hx.2, ?_⟩
  simp only [computeRegression, if_neg h3, hx.1, hx.2, or_self, if_neg,
    not_false_eq_true, Option.some.injEq] at h
  exact h.symm

theorem tStat_eq_spec (pts : List ScatterPoint) :
    tStat pts = specSlope pts / specSE pts := by
  rw [tStat, seOf_eq_spec, slope_eq_spec]
  by_cases h : specSE pts = 0
  · simp [h]
  · simp [h]

/-- C1: on any point list with at least 3 points and nonzero x- and
y-variance, `computeRegression` returns a result whose slope, intercept,
R², standard-error-based p-value and rendering segment are exactly the
spec's sums-of-squares formulas (division by zero in `t = slope/SE`
coincides with the source's `se === 0 ? 0 : slope/se` guard under the
real-field convention `a / 0 = 0`). -/
theorem c1_regression_matches_spec (pts : List ScatterPoint)
    (h3 : 3 ≤ pts.length) (hx : specSxx pts ≠ 0) (hy : specSyy pts ≠ 0) :
    ∃ r, computeRegression pts = some r ∧
      r.slope = specSlope pts ∧
      r.intercept = specIntercept pts ∧
      r.r2 = 1 - specSSE pts / specSyy pts ∧
      r.p = 2 * (1 - normalCdf |specSlope pts / specSE pts|) ∧
      ∃ xmin xmax, xmin ∈ xsOf pts ∧ (∀ x ∈ xsOf pts, xmin ≤ x) ∧
        xmax ∈ xsOf pts ∧ (∀ x ∈ xsOf pts, x ≤ xmax) ∧
        r.line = [(xmin, r.slope * xmin + r.intercept),
                  (xmax, r.slope * xmax + r.intercept)] := by
  have hx0 : ssX pts ≠ 0 := by rwa [ssX_eq_spec]
  have hy0 : ssY pts ≠ 0 := by rwa [ssY_eq_spec]
  have hlt : ¬pts.length < 3 := not_lt.mpr h3
  have hne : xsOf pts ≠ [] := by
    have : 0 < (xsOf pts).length := by
      rw [xsOf, List.length_map]
      omega
    exact List.ne_nil_of_length_pos this
  refine ⟨⟨slope pts, intercept pts, r2Of pts, pValue pts, regLine pts⟩, ?_,
    slope_eq_spec pts, intercept_eq_spec pts, ?_, ?_, ?_⟩
  · simp [computeRegression, hlt, hx0, hy0]
  · show r2Of pts = _
    rw [r2Of, sse_eq_spec, ssY_eq_spec]
  · show pValue pts = _
    rw [pValue, tStat_eq_spec]
  · refine ⟨listMin (xsOf pts), listMax (xsOf pts), listMin_mem _ hne,
      listMin_le _, listMax_mem _ hne, le_listMax _, rfl⟩

/-- C2: `computeRegression` returns `null` on fewer than 3 points, on zero
x-variance (in particular when all x-values coincide) and on zero
y-variance (in particular when all y-values coincide). -/
theorem c2_regression_degenerate_none :
    (∀ pts : List ScatterPoint, pts.length < 3 → computeRegression pts = none) ∧
    (∀ pts : List ScatterPoint, ssX pts = 0 → computeRegression pts = none) ∧
    (∀ pts : List ScatterPoint, ssY pts = 0 → computeRegression pts = none) ∧
    (∀ pts : List ScatterPoint, (∀ p ∈ pts, ∀ q ∈ pts, p.x = q.x) →
      computeRegression pts = none) ∧
    (∀ pts : List ScatterPoint, (∀ p ∈ pts, ∀ q ∈ pts, p.y = q.y) →
      computeRegression pts = none) := by
  have hzx : ∀ pts : List ScatterPoint, ssX pts = 0 → computeRegression pts = none := by
    intro pts h
    by_cases h3 : pts.length < 3
    · simp [computeRegression, h3]
    · simp [computeRegression, h3, h]
  have hzy : ∀ pts : List ScatterPoint, ssY pts = 0 → computeRegression pts = none := by
    intro pts h
    by_cases h3 : pts.length < 3
    · simp [computeRegression, h3]
    · simp [computeRegression, h3, h]
  refine ⟨fun pts h3 => by simp [computeRegression, h3], hzx, hzy, ?_, ?_⟩
  · intro pts hall
    match pts, hall with
    | [], _ => simp [computeRegression]
    | p0 :: rest, hall =>
        apply hzx
        rw [ssX_eq_spec, specSxx]
        have hval : ∀ q ∈ p0 :: rest, q.x = p0.x := fun q hq =>
          hall q hq p0 (List.mem_cons_self _ _)
        have hmean : specXBar (p0 :: rest) = p0.x := by
          rw [specXBar, sum_map_const_of_all _ _ p0.x (fun q hq => hval q hq)]
          have hn : ((p0 :: rest).length : ℝ) ≠ 0 := by
            simp [List.length_cons]
            positivity
          field_simp
        apply sum_map_const_of_all _ _ 0 (fun q hq => ?_) |>.trans (by ring)
        rw [hmean, hval q hq]
        ring
  · intro pts hall
    match pts, hall with
    | [], _ => simp [computeRegression]
    | p0 :: rest, hall =>
        apply hzy
        rw [ssY_eq_spec, specSyy]
        have hval : ∀ q ∈ p0 :: rest, q.y = p0.y := fun q hq =>
          hall q hq p0 (List.mem_cons_self _ _)
        have hmean : specYBar (p0 :: rest) = p0.y := by
          rw [specYBar, sum_map_const_of_all _ _ p0.y (fun q hq => hval q hq)]
          have hn : ((p0 :: rest).length : ℝ) ≠ 0 := by
            simp [List.length_cons]
            positivity
          field_simp
        apply sum_map_const_of_all _ _ 0 (fun q hq => ?_) |>.trans (by ring)
        rw [hmean, hval q hq]
        ring

/-- C10: whenever `computeRegression` returns a result, its R² lies in
[0, 1]: the residual sum of squares of the least-squares line never
exceeds the total sum of squares. -/
theorem c10_r2_in_unit_interval (pts : List ScatterPoint) (r : RegressionResult)
    (h : computeRegression pts = some r) : 0 ≤ r.r2 ∧ r.r2 ≤ 1 := by
  obtain ⟨h3, hx, hy, rfl⟩ := computeRegression_elim h
  have hx' : specSxx pts ≠ 0 := by rwa [ssX_eq_spec] at hx
  have hy' : specSyy pts ≠ 0 := by rwa [ssY_eq_spec] at hy
  have hxpos : 0 < specSxx pts := lt_of_le_of_ne (specSxx_nonneg pts) (Ne.symm hx')
  have hypos : 0 < specSyy pts := lt_of_le_of_ne (specSyy_nonneg pts) (Ne.symm hy')
  have hsse0 : 0 ≤ specSSE pts := specSSE_nonneg pts
  have hle : specSSE pts ≤ specSyy pts := by
    rw [specSSE_identity pts hx']
    have h0 : 0 ≤ specSxy pts ^ 2 / specSxx pts := div_nonneg (sq_nonneg _) hxpos.le
    linarith
  have hr : r2Of pts = 1 - specSSE pts / specSyy pts := by
    rw [r2Of, sse_eq_spec, ssY_eq_spec]
  constructor
  · show 0 ≤ r2Of pts
    rw [hr]
    have : specSSE pts / specSyy pts ≤ 1 := (div_le_one hypos).mpr hle
    linarith
  · show r2Of pts ≤ 1
    rw [hr]
    have : 0 ≤ specSSE pts / specSyy pts := div_nonneg hsse0 hypos.le
    linarith

/-- C4: the caller classifies a fit as relevant exactly when `p < 0.05`
and `R² ≥ 0.1`; in particular R²=0.15, p=0.03 is relevant, R²=0.05,
p=0.01 is not, and an undefined fit is never relevant. -/
theorem c4_relevance_classification :
    (∀ r : RegressionResult, isRelevant (some r) ↔ (r.p < 0.05 ∧ r.r2 ≥ 0.1)) ∧
    isRelevant (some ⟨0, 0, 0.15, 0.03, []⟩) ∧
    ¬isRelevant (some ⟨0, 0, 0.05, 0.01, []⟩) ∧
    ¬isRelevant none := by
  refine ⟨fun r => Iff.rfl, ⟨by norm_num, by norm_num⟩, ?_, fun h => h⟩
  intro h
  obtain ⟨-, h2⟩ := h
  norm_num at h2

/-- The spec's worked regression example: the perfectly correlated points
(1,2), (2,4), (3,6). -/
def c3pts : List ScatterPoint := [⟨1, 2, ""⟩, ⟨2, 4, ""⟩, ⟨3, 6, ""⟩]

theorem xBar_c3pts : xBar c3pts = 2 := by
  norm_num [xBar, xsOf, c3pts]

theorem yBar_c3pts : yBar c3pts = 4 := by
  norm_num [yBar, ysOf, c3pts]

theorem ssX_c3pts : ssX c3pts = 2 := by
  simp only [ssX, xBar_c3pts]
  norm_num [c3pts]

theorem ssY_c3pts : ssY c3pts = 8 := by
  simp only [ssY, yBar_c3pts]
  norm_num [c3pts]

theorem ssXY_c3pts : ssXY c3pts = 4 := by
  simp only [ssXY, xBar_c3pts, yBar_c3pts]
  norm_num [c3pts]

theorem slope_c3pts : slope c3pts = 2 := by
  rw [slope, ssXY_c3pts, ssX_c3pts]
  norm_num

theorem intercept_c3pts : intercept c3pts = 0 := by
  rw [intercept, yBar_c3pts, slope_c3pts, xBar_c3pts]
  norm_num

theorem sse_c3pts : sse c3pts = 0 := by
  simp only [sse, slope_c3pts, intercept_c3pts]
  norm_num [c3pts]

theorem r2Of_c3pts : r2Of c3pts = 1 := by
  rw [r2Of, sse_c3pts, ssY_c3pts]
  norm_num

theorem seOf_c3pts : seOf c3pts = 0 := by
  rw [seOf, sse_c3pts, ssX_c3pts]
  norm_num

theorem normalCdf_zero : normalCdf 0 = 49999985009951 / 100000000000000 := by
  rw [normalCdf]
  norm_num [Real.exp_zero]

theorem pValue_c3pts : pValue c3pts = 50000014990049 / 50000000000000 := by
  rw [pValue, tStat, seOf_c3pts, if_pos rfl, abs_zero, normalCdf_zero]
  norm_num

theorem regLine_c3pts : regLine c3pts = [(1, 2), (3, 6)] := by
  have hmin : listMin (xsOf c3pts) = 1 := by
    norm_num [listMin, xsOf, c3pts, min_def]
  have hmax : listMax (xsOf c3pts) = 3 := by
    norm_num [listMax, xsOf, c3pts, max_def]
  rw [regLine]
  simp only [hmin, hmax, slope_c3pts, intercept_c3pts]
  norm_num

theorem computeRegression_c3pts :
    computeRegression c3pts =
      some ⟨2, 0, 1, 50000014990049 / 50000000000000, [(1, 2), (3, 6)]⟩ := by
  have hlen : ¬c3pts.length < 3 := by norm_num [c3pts]
  have hcond : ¬(ssX c3pts = 0 ∨ ssY c3pts = 0) := by
    rw [ssX_c3pts, ssY_c3pts]
    norm_num
  rw [computeRegression, if_neg hlen, if_neg hcond, slope_c3pts,
    intercept_c3pts, r2Of_c3pts, pValue_c3pts, regLine_c3pts]

/-- C3: on the spec's example points (1,2), (2,4), (3,6) the code returns
slope 2, intercept 0 and R² = 1 as the spec says — but the p-value is
exactly 100000029980098/10¹⁴ ≈ 1.0000003, not "near 0": the guard
`t = se === 0 ? 0 : slope/se` maps the perfect fit (se = 0) to t = 0,
whose two-tailed p under the polynomial CDF is just above 1. -/
theorem c3_perfect_fit_p_not_near_zero :
    ∃ r, computeRegression c3pts = some r ∧ r.slope = 2 ∧ r.intercept = 0 ∧
      r.r2 = 1 ∧ r.p = 50000014990049 / 50000000000000 ∧ 1 < r.p :=
  ⟨_, computeRegression_c3pts, rfl, rfl, rfl, rfl, by norm_num⟩

/-- Witness for C10 at the concrete input `c3pts`. -/
theorem c10_r2_in_unit_interval_witness :
    0 ≤ (RegressionResult.mk 2 0 1 (50000014990049 / 50000000000000)
      [(1, 2), (3, 6)]).r2 ∧
    (RegressionResult.mk 2 0 1 (50000014990049 / 50000000000000)
      [(1, 2), (3, 6)]).r2 ≤ 1 :=
  c10_r2_in_unit_interval c3pts _ computeRegression_c3pts

theorem specSxx_c3pts : specSxx c3pts ≠ 0 := by
  rw [← ssX_eq_spec, ssX_c3pts]
  norm_num

theorem specSyy_c3pts : specSyy c3pts ≠ 0 := by
  rw [← ssY_eq_spec, ssY_c3pts]
  norm_num

/-- Witness for C1 at the concrete input `c3pts`. -/
theorem c1_regression_matches_spec_witness :
    (3 ≤ c3pts.length ∧ specSxx c3pts ≠ 0 ∧ specSyy c3pts ≠ 0) ∧
    (∃ r, computeRegression c3pts = some r ∧
      r.slope = specSlope c3pts ∧
      r.intercept = specIntercept c3pts ∧
      r.r2 = 1 - specSSE c3pts / specSyy c3pts ∧
      r.p = 2 * (1 - normalCdf |specSlope c3pts / specSE c3pts|) ∧
      ∃ xmin xmax, xmin ∈ xsOf c3pts ∧ (∀ x ∈ xsOf c3pts, xmin ≤ x) ∧
        xmax ∈ xsOf c3pts ∧ (∀ x ∈ xsOf c3pts, x ≤ xmax) ∧
        r.line = [(xmin, r.slope * xmin + r.intercept),
                  (xmax, r.slope * xmax + r.intercept)]) :=
  ⟨⟨by norm_num [c3pts], specSxx_c3pts, specSyy_c3pts⟩,
    c1_regression_matches_spec c3pts (by norm_num [c3pts]) specSxx_c3pts
      specSyy_c3pts⟩

/-- The spec's zero-x-variance example: the points (5,1), (5,2), (5,3). -/
def zeroVarPts : List ScatterPoint := [⟨5, 1, ""⟩, ⟨5, 2, ""⟩, ⟨5, 3, ""⟩]

/-- Witness for C2 at the concrete input `zeroVarPts`. -/
theorem c2_regression_degenerate_none_witness :
    (∀ p ∈ zeroVarPts, ∀ q ∈ zeroVarPts, p.x = q.x) ∧
    computeRegression zeroVarPts = none := by
  have hall : ∀ p ∈ zeroVarPts, ∀ q ∈ zeroVarPts, p.x = q.x := by
    intro p hp q hq
    fin_cases hp <;> fin_cases hq <;> rfl
  exact ⟨hall, c2_regression_degenerate_none.2.2.2.1 zeroVarPts hall⟩

theorem perCapitaContribution_eq_getD (pop : Option ℚ) (amt : ℚ) :
    perCapitaContribution (pop.getD 0) amt = (perCapita pop amt).getD 0 := by
  cases pop with
  | none => simp [perCapita, perCapitaContribution]
  | some p =>
      by_cases hp : 0 < p
      · simp [perCapita, perCapitaContribution, hp]
      · simp [perCapita, perCapitaContribution, hp]

/-- C5: the per-capita normalizer (modelled from §4.3 of the spec, since
the source inlines it) returns obligation/population for positive
population and undefined for zero or missing population; the source's
inline zero-default `pop > 0 ? amt/pop : 0` is exactly the normalizer with
undefined values replaced by 0, which is how window averages zero-default
them and how scatter (correlation) inputs are built — no undefined
per-capita ratio ever reaches a scatter x-value. -/
theorem c5_per_capita_normalizer :
    (∀ p amt : ℚ, 0 < p → perCapita (some p) amt = some (amt / p)) ∧
    (∀ amt : ℚ, perCapita none amt = none) ∧
    (∀ amt : ℚ, perCapita (some 0) amt = none) ∧
    (∀ (pop : Option ℚ) (amt : ℚ),
      perCapitaContribution (pop.getD 0) amt = (perCapita pop amt).getD 0) ∧
    (∀ (years : List ℕ) (pop amt : ℕ → Option ℚ),
      windowAverage years pop amt =
        (years.map fun fy =>
          (perCapita (pop fy) ((amt fy).getD 0)).getD 0).sum / years.length) ∧
    (∀ (states : List String) (pop amt : String → ℕ → Option ℚ)
      (margins : String → Option ℚ) (x m : ℚ) (st : String),
      (x, m, st) ∈ scatterInputs states pop amt margins →
        x = windowAverage bidenYears (pop st) (amt st)
          - windowAverage preYears (pop st) (amt st)) := by
  refine ⟨fun p amt hp => by simp [perCapita, hp], fun amt => rfl,
    fun amt => by simp [perCapita], perCapitaContribution_eq_getD, ?_, ?_⟩
  · intro years pop amt
    rw [windowAverage, foldl_add_map, zero_add]
    have hmap : years.map
        (fun fy => perCapitaContribution ((pop fy).getD 0) ((amt fy).getD 0)) =
        years.map (fun fy => (perCapita (pop fy) ((amt fy).getD 0)).getD 0) :=
      List.map_congr_left fun fy _ => perCapitaContribution_eq_getD _ _
    rw [hmap]
  · intro states pop amt margins x m st h
    simp only [scatterInputs, List.mem_filterMap] at h
    obtain ⟨st', _, heq⟩ := h
    cases hm : margins st' with
    | none => rw [hm] at heq; simp at heq
    | some mv =>
        rw [hm] at heq
        simp only [Option.some.injEq, Prod.mk.injEq] at heq
        obtain ⟨hx, -, hst⟩ := heq
        subst hst
        rw [← hx, deltaBidenPre]

/-- Witness for C5 at population 2, obligation 10. -/
theorem c5_per_capita_normalizer_witness :
    0 < (2 : ℚ) ∧ perCapita (some 2) 10 = some (10 / 2) :=
  ⟨by norm_num, c5_per_capita_normalizer.1 2 10 (by norm_num)⟩

/-- C6: the window average divides by the window length with missing
years contributing 0, the delta is current-window average minus
baseline-window average, and on the spec's examples: per-capita values
{2017↦10, 2018↦20, 2019 missing, 2020↦30} average to 15, and a baseline
average of 15 against a current average of 25 gives a delta of 10. -/
theorem c6_window_average_and_delta :
    (∀ (years : List ℕ) (pop amt : ℕ → Option ℚ),
      windowAverage years pop amt =
        (years.map fun fy =>
          perCapitaContribution ((pop fy).getD 0) ((amt fy).getD 0)).sum
          / years.length) ∧
    (∀ pop amt : ℕ → Option ℚ,
      deltaBidenPre pop amt =
        windowAverage bidenYears pop amt - windowAverage preYears pop amt) ∧
    windowAverage [2017, 2018, 2019, 2020] (fun _ => some 1)
      (fun fy => if fy = 2017 then some 10 else if fy = 2018 then some 20
        else if fy = 2020 then some 30 else none) = 15 ∧
    windowAverage preYears (fun _ => some 1)
      (fun fy => if fy = 2017 then some 10 else if fy = 2018 then some 20
        else if fy = 2020 then some 30 else if 2021 ≤ fy then some 25
        else none) = 15 ∧
    windowAverage bidenYears (fun _ => some 1)
      (fun fy => if fy = 2017 then some 10 else if fy = 2018 then some 20
        else if fy = 2020 then some 30 else if 2021 ≤ fy then some 25
        else none) = 25 ∧
    deltaBidenPre (fun _ => some 1)
      (fun fy => if fy = 2017 then some 10 else if fy = 2018 then some 20
        else if fy = 2020 then some 30 else if 2021 ≤ fy then some 25
        else none) = 10 := by
  refine ⟨?_, fun pop amt => rfl,
    by norm_num [windowAverage, perCapitaContribution],
    by norm_num [windowAverage, perCapitaContribution, preYears],
    by norm_num [windowAverage, perCapitaContribution, bidenYears],
    by norm_num [deltaBidenPre, windowAverage, perCapitaContribution,
      preYears, bidenYears]⟩
  intro years pop amt
  rw [windowAverage, foldl_add_map, zero_add]

/-! ### Association-list (JS `Map`) lemmas -/

theorem getKey?_nil {α : Type} (k : String) :
    getKey? ([] : List (String × α)) k = none := rfl

theorem getKey?_cons {α : Type} (e : String × α) (es : List (String × α))
    (k : String) :
    getKey? (e :: es) k = if e.1 = k then some e.2 else getKey? es k := by
  by_cases h : e.1 = k
  · simp [getKey?, List.find?, h]
  · have hb : (e.1 == k) = false := beq_eq_false_iff_ne.mpr h
    simp [getKey?, List.find?, hb, h]

theorem getKey?_map_update {α : Type} (m : List (String × α)) (k k' : String)
    (v : α) :
    getKey? (m.map (fun e => if e.1 = k then (k, v) else e)) k' =
      if k' = k then (if m.any (·.1 == k) then some v else none)
      else getKey? m k' := by
  induction m with
  | nil => by_cases h : k' = k <;> simp [getKey?, h]
  | cons e es ih =>
      simp only [List.map_cons, List.any_cons]
      by_cases he : e.1 = k
      · by_cases hk : k' = k
        · subst hk
          simp [getKey?_cons, he]
        · have hek : e.1 ≠ k' := fun h => hk (h ▸ he.symm ▸ rfl)
          simp [getKey?_cons, he, hk, ih, Ne.symm hk, hek]
      · by_cases hk : k' = k
        · subst hk
          have hb : (e.1 == k') = false := beq_eq_false_iff_ne.mpr he
          conv_lhs => rw [getKey?_cons, if_neg he, ih]
          simp only [eq_self_iff_true, if_true, hb, Bool.false_or]
          rw [if_neg he]
        · simp only [if_neg he, getKey?_cons, ih, if_neg hk]

theorem getKey?_append_one {α : Type} (m : List (String × α)) (k k' : String)
    (v : α) :
    getKey? (m ++ [(k, v)]) k' =
      match getKey? m k' with
      | some w => some w
      | none => if k' = k then some v else none := by
  induction m with
  | nil =>
      by_cases h : k' = k
      · simp [getKey?_cons, getKey?_nil, h]
      · simp [getKey?_cons, getKey?_nil, h, Ne.symm h]
  | cons e es ih =>
      by_cases he : e.1 = k'
      · simp [List.cons_append, getKey?_cons, he]
      · simp only [List.cons_append, getKey?_cons, if_neg he, ih]

theorem getKey?_eq_none_of_any_false {α : Type} (m : List (String × α))
    (k : String) (h : m.any (·.1 == k) = false) : getKey? m k = none := by
  induction m with
  | nil => rfl
  | cons e es ih =>
      simp only [List.any_cons, Bool.or_eq_false_iff] at h
      obtain ⟨h1, h2⟩ := h
      rw [getKey?_cons, if_neg (beq_eq_false_iff_ne.mp h1), ih h2]

theorem getKey?_setKey {α : Type} (m : List (String × α)) (k k' : String)
    (v : α) :
    getKey? (setKey m k v) k' = if k' = k then some v else getKey? m k' := by
  rw [setKey]
  by_cases hany : m.any (·.1 == k)
  · rw [if_pos hany, getKey?_map_update, hany]
    simp
  · rw [if_neg hany, getKey?_append_one]
    have hnone : getKey? m k = none :=
      getKey?_eq_none_of_any_false m k (Bool.eq_false_iff.mpr hany)
    by_cases hk : k' = k
    · subst hk
      rw [hnone]
    · cases hw : getKey? m k' <;> simp [hk]

theorem keys_setKey {α : Type} (m : List (String × α)) (k : String) (v : α) :
    (setKey m k v).map Prod.fst =
      if m.any (·.1 == k) then m.map Prod.fst else m.map Prod.fst ++ [k] := by
  rw [setKey]
  by_cases hany : m.any (·.1 == k)
  · rw [if_pos hany, if_pos hany, List.map_map]
    apply List.map_congr_left
    intro e _
    by_cases he : e.1 = k
    · simp [he]
    · simp [he]
  · rw [if_neg hany, if_neg hany, List.map_append]
    rfl

theorem nodup_keys_setKey {α : Type} (m : List (String × α)) (k : String)
    (v : α) (h : (m.map Prod.fst).Nodup) :
    ((setKey m k v).map Prod.fst).Nodup := by
  rw [keys_setKey]
  by_cases hany : m.any (·.1 == k)
  · rwa [if_pos hany]
  · rw [if_neg hany]
    have hk : k ∉ m.map Prod.fst := by
      intro hmem
      obtain ⟨e, he, hfst⟩ := List.mem_map.mp hmem
      have : m.any (·.1 == k) = true :=
        List.any_eq_true.mpr ⟨e, he, by simp [hfst]⟩
      exact hany this
    rw [List.nodup_append]
    exact ⟨h, List.nodup_singleton k,
      fun a ha hb => by
        rw [List.mem_singleton] at hb
        exact hk (hb ▸ ha)⟩

theorem mem_of_getKey?_eq_some {α : Type} {m : List (String × α)} {k : String}
    {v : α} (h : getKey? m k = some v) : (k, v) ∈ m := by
  rw [getKey?] at h
  cases hf : m.find? (·.1 == k) with
  | none => rw [hf] at h; simp at h
  | some e =>
      rw [hf] at h
      simp only [Option.map_some'] at h
      have hmem := List.mem_of_find?_eq_some hf
      have hpred := List.find?_some hf
      have hk : e.1 = k := by simpa using hpred
      have hv : e.2 = v := by simpa using h
      have : e = (k, v) := Prod.ext hk hv
      rwa [this] at hmem

theorem getKey?_eq_some_of_mem_nodup {α : Type} {m : List (String × α)}
    {k : String} {v : α} (hnd : (m.map Prod.fst).Nodup) (h : (k, v) ∈ m) :
    getKey? m k = some v := by
  induction m with
  | nil => exact absurd h (List.not_mem_nil _)
  | cons e es ih =>
      simp only [List.map_cons, List.nodup_cons] at hnd
      rcases List.mem_cons.mp h with h1 | h1
      · rw [← h1, getKey?_cons, if_pos rfl]
      · have hek : e.1 ≠ k := by
          intro hk
          exact hnd.1 (hk ▸ List.mem_map.mpr ⟨(k, v), h1, rfl⟩)
        rw [getKey?_cons, if_neg hek]
        exact ih hnd.2 h1

/-! ### District-to-state aggregation -/

/-- Spec-side per-state vote sum: over the data rows whose (truthy) state
cell equals `st`, the sum of the numeric interpretations of the vote cell
at column `idxNum`, a non-numeric cell contributing 0. -/
def voteSum (idxSt idxNum : Int) (dataRows : List (List String))
    (st : String) : ℚ :=
  ((dataRows.filter (fun r => stateCell r idxSt == some st)).map
    (fun r => (numCell (cellAt r idxNum)).getD 0)).sum

theorem foldl_aggStep_getKey (i j k : Int) (st : String) :
    ∀ (rows : List (List String)) (acc : List (String × ℚ × ℚ)),
      (getKey? (rows.foldl (aggStep i j k) acc) st).getD (0, 0) =
        (((getKey? acc st).getD (0, 0)).1 + voteSum i j rows st,
         ((getKey? acc st).getD (0, 0)).2 + voteSum i k rows st) := by
  intro rows
  induction rows with
  | nil =>
      intro acc
      simp [voteSum]
  | cons r rs ih =>
      intro acc
      rw [List.foldl_cons, ih (aggStep i j k acc r)]
      cases hsc : stateCell r i with
      | none =>
          have hstep : aggStep i j k acc r = acc := by rw [aggStep, hsc]
          have hfilter : (stateCell r i == some st) = false := by
            simp [hsc]
          rw [hstep]
          simp [voteSum, List.filter_cons, hfilter]
      | some st' =>
          have hstep : aggStep i j k acc r =
              setKey acc st'
                (((getKey? acc st').getD (0, 0)).1 +
                    (numCell (cellAt r j)).getD 0,
                 ((getKey? acc st').getD (0, 0)).2 +
                    (numCell (cellAt r k)).getD 0) := by
            rw [aggStep, hsc]
          rw [hstep]
          by_cases hst : st = st'
          · subst hst
            rw [getKey?_setKey, if_pos rfl]
            have hfilter : (stateCell r i == some st) = true := by
              simp [hsc]
            simp only [Option.getD_some, voteSum, List.filter_cons, hfilter,
              if_true, List.map_cons, List.sum_cons]
            rw [Prod.mk.injEq]
            constructor <;> ring
          · rw [getKey?_setKey, if_neg hst]
            have hfilter : (stateCell r i == some st) = false := by
              simp [hsc, Ne.symm hst]
            simp [voteSum, List.filter_cons, hfilter]

theorem nodup_keys_foldl_aggStep (i j k : Int) :
    ∀ (rows : List (List String)) (acc : List (String × ℚ × ℚ)),
      (acc.map Prod.fst).Nodup →
      ((rows.foldl (aggStep i j k) acc).map Prod.fst).Nodup := by
  intro rows
  induction rows with
  | nil => intro acc h; simpa using h
  | cons r rs ih =>
      intro acc h
      rw [List.foldl_cons]
      apply ih
      cases hsc : stateCell r i with
      | none => rw [aggStep, hsc]; exact h
      | some st' =>
          rw [aggStep, hsc]
          exact nodup_keys_setKey _ _ _ h

/-- C7: district-to-state aggregation sums the two parties' vote counts
per state (non-numeric cells contributing 0, rows with a missing or empty
state cell contributing nothing), a state's margin is
(dem − gop)/(dem + gop), a state with zero two-party total gets no margin
entry, and the ("TX" rows: non-numeric "abc" as 0, 60/40 split, a
stateless row skipped, "WY" 0/0 excluded) example evaluates to
[("TX", 1/5)]. -/
theorem c7_district_aggregation_and_margins :
    (∀ (i j k : Int) (dataRows : List (List String)) (st : String),
      (getKey? (aggregateTotals i j k dataRows) st).getD (0, 0) =
        (voteSum i j dataRows st, voteSum i k dataRows st)) ∧
    (∀ (rows : List (List String)) (st : String) (d g : ℚ),
      getKey? (aggregateTotals (jsIndexOf "ST" (rows.headD []))
          (jsIndexOf "Votes_Dem_2024" (rows.headD []))
          (jsIndexOf "Votes_GOP_2024" (rows.headD []))
          (rows.drop 1)) st = some (d, g) →
        d + g ≠ 0 →
        (st, (d - g) / (d + g)) ∈ mapHouseMarginsRows rows) ∧
    (∀ (rows : List (List String)) (st : String) (d g : ℚ),
      getKey? (aggregateTotals (jsIndexOf "ST" (rows.headD []))
          (jsIndexOf "Votes_Dem_2024" (rows.headD []))
          (jsIndexOf "Votes_GOP_2024" (rows.headD []))
          (rows.drop 1)) st = some (d, g) →
        d + g = 0 →
        st ∉ (mapHouseMarginsRows rows).map Prod.fst) ∧
    mapHouseMarginsRows
      [["ST", "Votes_Dem_2024", "Votes_GOP_2024"], ["TX", "abc", "40"],
       ["TX", "60", "0"], ["", "99", "99"], ["WY", "0", "0"]] =
      [("TX", 1 / 5)] := by
  refine ⟨?_, ?_, ?_, ?_⟩
  · intro i j k dataRows st
    rw [aggregateTotals, foldl_aggStep_getKey]
    simp [getKey?_nil]
  · intro rows st d g hget hne
    have hmem : (st, (d, g)) ∈ aggregateTotals (jsIndexOf "ST" (rows.headD []))
        (jsIndexOf "Votes_Dem_2024" (rows.headD []))
        (jsIndexOf "Votes_GOP_2024" (rows.headD [])) (rows.drop 1) :=
      mem_of_getKey?_eq_some hget
    rw [mapHouseMarginsRows]
    exact List.mem_filterMap.mpr ⟨(st, (d, g)), hmem, by simp [hne]⟩
  · intro rows st d g hget h0 hmem
    obtain ⟨pr, hpr, hfst⟩ := List.mem_map.mp hmem
    rw [mapHouseMarginsRows] at hpr
    obtain ⟨e, hetot, hfe⟩ := List.mem_filterMap.mp hpr
    by_cases hcond : e.2.1 + e.2.2 = 0
    · rw [if_pos hcond] at hfe
      exact absurd hfe (Option.noConfusion)
    · rw [if_neg hcond] at hfe
      have hpr1 : pr.1 = e.1 := by
        rw [← Option.some.inj hfe]
      have he1 : e.1 = st := by rw [← hpr1, hfst]
      have hnd : ((aggregateTotals (jsIndexOf "ST" (rows.headD []))
          (jsIndexOf "Votes_Dem_2024" (rows.headD []))
          (jsIndexOf "Votes_GOP_2024" (rows.headD []))
          (rows.drop 1)).map Prod.fst).Nodup :=
        nodup_keys_foldl_aggStep _ _ _ _ [] (by simp)
      have hget2 : getKey? (aggregateTotals (jsIndexOf "ST" (rows.headD []))
          (jsIndexOf "Votes_Dem_2024" (rows.headD []))
          (jsIndexOf "Votes_GOP_2024" (rows.headD []))
          (rows.drop 1)) st = some e.2 := by
        apply getKey?_eq_some_of_mem_nodup hnd
        have : e = (st, e.2) := Prod.ext he1 rfl
        rwa [this] at hetot
      rw [hget] at hget2
      have : e.2 = (d, g) := (Option.some.inj hget2).symm
      rw [this] at hcond
      exact hcond h0
  · simp +decide [mapHouseMarginsRows, aggregateTotals, aggStep, jsIndexOf,
      stateCell, cellAt, numCell, jsNum, digitsVal, setKey, getKey?,
      Int.toNat_ofNat]
    norm_num [List.filterMap_cons]

/-- Witness for C7: in the header + ("TX", 60, 40) + ("WY", 0, 0) table,
the state WY has two-party total 0 and gets no margin entry. -/
theorem c7_district_aggregation_and_margins_witness :
    getKey? (aggregateTotals (jsIndexOf "ST"
        ([["ST", "Votes_Dem_2024", "Votes_GOP_2024"], ["TX", "60", "40"],
          ["WY", "0", "0"]].headD []))
      (jsIndexOf "Votes_Dem_2024"
        ([["ST", "Votes_Dem_2024", "Votes_GOP_2024"], ["TX", "60", "40"],
          ["WY", "0", "0"]].headD []))
      (jsIndexOf "Votes_GOP_2024"
        ([["ST", "Votes_Dem_2024", "Votes_GOP_2024"], ["TX", "60", "40"],
          ["WY", "0", "0"]].headD []))
      ([["ST", "Votes_Dem_2024", "Votes_GOP_2024"], ["TX", "60", "40"],
        ["WY", "0", "0"]].drop 1)) "WY" = some (0, 0) ∧
    ((0 : ℚ) + 0 = 0) ∧
    "WY" ∉ (mapHouseMarginsRows
      [["ST", "Votes_Dem_2024", "Votes_GOP_2024"], ["TX", "60", "40"],
       ["WY", "0", "0"]]).map Prod.fst := by
  have hget : getKey? (aggregateTotals (jsIndexOf "ST"
      ([["ST", "Votes_Dem_2024", "Votes_GOP_2024"], ["TX", "60", "40"],
        ["WY", "0", "0"]].headD []))
      (jsIndexOf "Votes_Dem_2024"
        ([["ST", "Votes_Dem_2024", "Votes_GOP_2024"], ["TX", "60", "40"],
          ["WY", "0", "0"]].headD []))
      (jsIndexOf "Votes_GOP_2024"
        ([["ST", "Votes_Dem_2024", "Votes_GOP_2024"], ["TX", "60", "40"],
          ["WY", "0", "0"]].headD []))
      ([["ST", "Votes_Dem_2024", "Votes_GOP_2024"], ["TX", "60", "40"],
        ["WY", "0", "0"]].drop 1)) "WY" = some (0, 0) := by
    simp +decide [aggregateTotals, aggStep, jsIndexOf, stateCell, cellAt,
      numCell, jsNum, digitsVal, setKey, getKey?, Int.toNat_ofNat,
      List.find?]
  exact ⟨hget, by norm_num,
    c7_district_aggregation_and_margins.2.2.1 _ _ _ _ hget (by norm_num)⟩

/-! ### Missing header columns -/

theorem jsIndexOf_eq_neg_one {a : String} :
    ∀ {l : List String}, a ∉ l → jsIndexOf a l = -1
  | [], _ => rfl
  | b :: bs, h => by
      have hb : ¬b = a := fun hba => h (List.mem_cons.mpr (Or.inl hba.symm))
      have hbs : a ∉ bs := fun hm => h (List.mem_cons.mpr (Or.inr hm))
      rw [jsIndexOf, if_neg hb, jsIndexOf_eq_neg_one hbs, if_pos rfl]

theorem stateCell_neg_one (r : List String) : stateCell r (-1) = none := by
  simp [stateCell, cellAt]

theorem foldl_const {α β : Type} :
    ∀ (l : List β) (a : α), l.foldl (fun x _ => x) a = a
  | [], _ => rfl
  | _ :: bs, a => foldl_const bs a

/-- C8 (amended): when the `"ST"` header column is absent the margin
parsers do not fail — every data row's state cell resolves to `undefined`,
every row is skipped, and both parsers return the empty mapping. -/
theorem c8_missing_header_not_fatal (rows : List (List String))
    (h : "ST" ∉ rows.headD []) :
    mapHouseMarginsRows rows = [] ∧ mapPresMarginsRows rows = [] := by
  have hidx : jsIndexOf "ST" (rows.headD []) = -1 := jsIndexOf_eq_neg_one h
  have hstep : ∀ (j k : Int) (acc : List (String × ℚ × ℚ)) r,
      aggStep (-1) j k acc r = acc := by
    intro j k acc r
    rw [aggStep, stateCell_neg_one]
  have hagg : ∀ (j k : Int) (rs : List (List String)),
      aggregateTotals (-1) j k rs = [] := by
    intro j k rs
    rw [aggregateTotals]
    induction rs with
    | nil => rfl
    | cons r rs ih => rw [List.foldl_cons, hstep]; exact ih
  constructor
  · simp only [mapHouseMarginsRows, hidx, hagg, List.filterMap_nil]
  · simp only [mapPresMarginsRows, hidx, stateCell_neg_one]
    rw [foldl_const]

/-- Witness for C8 (amended) at a concrete two-column table. -/
theorem c8_missing_header_not_fatal_witness :
    ("ST" ∉ (([["A", "B"], ["TX", "60"]] :
        List (List String)).headD [])) ∧
    (mapHouseMarginsRows [["A", "B"], ["TX", "60"]] = [] ∧
     mapPresMarginsRows [["A", "B"], ["TX", "60"]] = []) :=
  ⟨by decide, c8_missing_header_not_fatal _ (by decide)⟩

/-- Counterexample to C8 as stated: with expected header columns absent
the parsers still produce a mapping instead of failing — an empty one
when the state column is missing, and even a margin of −1 for TX when
only the Democratic-votes column is missing (its reads coerce to 0). -/
theorem c8_counterexample :
    mapHouseMarginsRows [["A", "B", "C"], ["TX", "60", "40"]] = [] ∧
    mapPresMarginsRows [["A", "B", "C"], ["TX", "60", "40"]] = [] ∧
    mapHouseMarginsRows [["ST", "X", "Votes_GOP_2024"], ["TX", "60", "40"]] =
      [("TX", -1)] := by
  refine ⟨?_, ?_, ?_⟩
  · simp +decide [mapHouseMarginsRows, aggregateTotals, aggStep, jsIndexOf,
      stateCell, cellAt, numCell, jsNum, digitsVal, setKey, getKey?]
  · simp +decide [mapPresMarginsRows, jsIndexOf, stateCell, cellAt, numCell,
      jsNum, digitsVal, setKey, getKey?]
  · simp +decide [mapHouseMarginsRows, aggregateTotals, aggStep, jsIndexOf,
      stateCell, cellAt, numCell, jsNum, digitsVal, setKey, getKey?,
      Int.toNat_ofNat]

/-! ### CSV scanner stepping lemmas -/

theorem mk_toList (s : String) : String.mk s.toList = s := rfl

theorem parseCSVGo_nil (rows : List (List String)) (row : List String)
    (cur : List Char) (q : Bool) :
    parseCSVGo rows row cur q [] =
      if cur ≠ [] ∨ row ≠ [] then rows ++ [row ++ [String.mk cur]]
      else rows := by
  simp [parseCSVGo]

theorem parseCSVGo_quote_lit (rows : List (List String)) (row : List String)
    (cur : List Char) (cs : List Char) :
    parseCSVGo rows row cur true ('"' :: '"' :: cs) =
      parseCSVGo rows row (cur ++ ['"']) true cs := by
  simp [parseCSVGo]

theorem parseCSVGo_quote_open (rows : List (List String)) (row : List String)
    (cur : List Char) (cs : List Char) :
    parseCSVGo rows row cur false ('"' :: cs) =
      parseCSVGo rows row cur true cs := by
  simp [parseCSVGo]

theorem parseCSVGo_quote_close (rows : List (List String))
    (row : List String) (cur : List Char) (cs : List Char)
    (h : cs.head? ≠ some '"') :
    parseCSVGo rows row cur true ('"' :: cs) =
      parseCSVGo rows row cur false cs := by
  simp [parseCSVGo, h]

theorem parseCSVGo_comma (rows : List (List String)) (row : List String)
    (cur : List Char) (cs : List Char) :
    parseCSVGo rows row cur false (',' :: cs) =
      parseCSVGo rows (row ++ [String.mk cur]) [] false cs := by
  simp [parseCSVGo]

theorem parseCSVGo_newline (rows : List (List String)) (row : List String)
    (cur : List Char) (cs : List Char) :
    parseCSVGo rows row cur false ('\n' :: cs) =
      parseCSVGo (rows ++ [row ++ [String.mk cur]]) [] [] false cs := by
  simp [parseCSVGo]

theorem parseCSVGo_char_inq (rows : List (List String)) (row : List String)
    (cur : List Char) (c : Char) (cs : List Char) (h1 : c ≠ '"')
    (h2 : c ≠ '\r') :
    parseCSVGo rows row cur true (c :: cs) =
      parseCSVGo rows row (cur ++ [c]) true cs := by
  simp [parseCSVGo, h1, h2]

theorem escBody_nil : escBody [] = [] := rfl

theorem escBody_quote (cs : List Char) :
    escBody ('"' :: cs) = '"' :: '"' :: escBody cs := by
  simp [escBody]

theorem escBody_char (c : Char) (cs : List Char) (h : c ≠ '"') :
    escBody (c :: cs) = c :: escBody cs := by
  simp [escBody, h]

theorem parseCSVGo_escBody (f : List Char) (hr : '\r' ∉ f) :
    ∀ (rows : List (List String)) (row : List String) (cur : List Char)
      (cs : List Char),
      parseCSVGo rows row cur true (escBody f ++ cs) =
        parseCSVGo rows row (cur ++ f) true cs := by
  induction f with
  | nil => intro rows row cur cs; simp [escBody_nil]
  | cons c f' ih =>
      intro rows row cur cs
      have hr' : '\r' ∉ f' := fun h => hr (List.mem_cons.mpr (Or.inr h))
      have hc : c ≠ '\r' := fun h =>
        hr (h ▸ List.mem_cons.mpr (Or.inl rfl))
      by_cases hq : c = '"'
      · subst hq
        rw [escBody_quote, List.cons_append, List.cons_append,
          parseCSVGo_quote_lit, ih hr']
        simp
      · rw [escBody_char c f' hq, List.cons_append,
          parseCSVGo_char_inq _ _ _ _ _ hq hc, ih hr']
        simp

theorem parseCSVGo_field (f : String) (hr : '\r' ∉ f.toList)
    (rows : List (List String)) (row : List String) (cur : List Char)
    (cs : List Char) (hcs : cs.head? ≠ some '"') :
    parseCSVGo rows row cur false (escFieldChars f ++ cs) =
      parseCSVGo rows row (cur ++ f.toList) false cs := by
  rw [escFieldChars, List.cons_append, parseCSVGo_quote_open,
    List.append_assoc, List.singleton_append,
    parseCSVGo_escBody f.toList hr, parseCSVGo_quote_close _ _ _ _ hcs]

theorem renderRowChars_single (f : String) :
    renderRowChars [f] = escFieldChars f := rfl

theorem renderRowChars_cons (f f' : String) (fs : List String) :
    renderRowChars (f :: f' :: fs) =
      escFieldChars f ++ ',' :: renderRowChars (f' :: fs) := rfl

theorem parseCSVGo_row_mid :
    ∀ (fields : List String), fields ≠ [] →
      (∀ f ∈ fields, '\r' ∉ f.toList) →
      ∀ (rows : List (List String)) (row : List String) (cs : List Char),
        parseCSVGo rows row [] false (renderRowChars fields ++ '\n' :: cs) =
          parseCSVGo (rows ++ [row ++ fields]) [] [] false cs
  | [], h, _ => absurd rfl h
  | [f], _, hr => by
      intro rows row cs
      rw [renderRowChars_single,
        parseCSVGo_field f (hr f (List.mem_cons.mpr (Or.inl rfl))) _ _ _ _
          (by simp), List.nil_append, parseCSVGo_newline, mk_toList]
  | f :: f' :: rest, _, hr => by
      intro rows row cs
      have hr1 : '\r' ∉ f.toList := hr f (List.mem_cons.mpr (Or.inl rfl))
      have hrrest : ∀ g ∈ f' :: rest, '\r' ∉ g.toList := fun g hg =>
        hr g (List.mem_cons.mpr (Or.inr hg))
      rw [renderRowChars_cons, List.append_assoc, List.cons_append,
        parseCSVGo_field f hr1 _ _ _ _ (by simp), List.nil_append,
        parseCSVGo_comma, mk_toList,
        parseCSVGo_row_mid (f' :: rest) (by simp) hrrest]
      simp

theorem parseCSVGo_row_end :
    ∀ (fields : List String), fields ≠ [] →
      (∀ f ∈ fields, '\r' ∉ f.toList) →
      ∀ (rows : List (List String)) (row : List String),
        (fields ≠ [""] ∨ row ≠ []) →
        parseCSVGo rows row [] false (renderRowChars fields) =
          rows ++ [row ++ fields]
  | [], h, _ => absurd rfl h
  | [f], _, hr => by
      intro rows row hcond
      have : renderRowChars [f] ++ ([] : List Char) = renderRowChars [f] := by
        simp
      rw [← this, renderRowChars_single,
        parseCSVGo_field f (hr f (List.mem_cons.mpr (Or.inl rfl))) _ _ _ _
          (by simp), List.nil_append, parseCSVGo_nil]
      have hne : f.toList ≠ [] ∨ row ≠ [] := by
        rcases hcond with h1 | h1
        · left
          intro hnil
          apply h1
          have hf : f = String.mk [] := by rw [← hnil, mk_toList]
          simp [hf]
        · right; exact h1
      rw [if_pos hne, mk_toList]
  | f :: f' :: rest, _, hr => by
      intro rows row hcond
      have hr1 : '\r' ∉ f.toList := hr f (List.mem_cons.mpr (Or.inl rfl))
      have hrrest : ∀ g ∈ f' :: rest, '\r' ∉ g.toList := fun g hg =>
        hr g (List.mem_cons.mpr (Or.inr hg))
      rw [renderRowChars_cons,
        parseCSVGo_field f hr1 _ _ _ _ (by simp), List.nil_append,
        parseCSVGo_comma, mk_toList,
        parseCSVGo_row_end (f' :: rest) (by simp) hrrest _ _
          (Or.inr (by simp))]
      simp

theorem renderTableChars_single (r : List String) :
    renderTableChars [r] = renderRowChars r := rfl

theorem renderTableChars_cons (r r' : List (String)) (rs : List (List String)) :
    renderTableChars (r :: r' :: rs) =
      renderRowChars r ++ '\n' :: renderTableChars (r' :: rs) := rfl

theorem parseCSVGo_table :
    ∀ (t : List (List String)), t ≠ [] →
      (∀ r ∈ t, r ≠ []) →
      (∀ r ∈ t, ∀ f ∈ r, '\r' ∉ f.toList) →
      t.getLast? ≠ some [""] →
      ∀ (rows : List (List String)),
        parseCSVGo rows [] [] false (renderTableChars t) = rows ++ t
  | [], h, _, _, _ => absurd rfl h
  | [r], _, hne, hr, hlast => by
      intro rows
      have hrne : r ≠ [""] := by
        intro hr1
        exact hlast (by simp [hr1])
      rw [renderTableChars_single,
        parseCSVGo_row_end r (hne r (List.mem_cons.mpr (Or.inl rfl)))
          (hr r (List.mem_cons.mpr (Or.inl rfl))) _ _ (Or.inl hrne)]
      simp
  | r :: r' :: rest, _, hne, hr, hlast => by
      intro rows
      have hlast' : (r' :: rest).getLast? ≠ some [""] := by
        intro h1
        apply hlast
        rwa [List.getLast?_cons_cons]
      rw [renderTableChars_cons,
        parseCSVGo_row_mid r (hne r (List.mem_cons.mpr (Or.inl rfl)))
          (hr r (List.mem_cons.mpr (Or.inl rfl))),
        parseCSVGo_table (r' :: rest) (by simp)
          (fun g hg => hne g (List.mem_cons.mpr (Or.inr hg)))
          (fun g hg => hr g (List.mem_cons.mpr (Or.inr hg))) hlast']
      simp

/-- C9 (amended): `parseCSV` — through which both electoral margin
parsers read their tables — implements standard CSV quoting: rendering
any table of fields (free of carriage returns, with nonempty rows and a
last row other than the single empty field) with every field quoted and
inner quotes doubled parses back to exactly that table, so embedded
separators and newlines do not split fields or rows and doubled quotes
decode to literal quotes.  The population parser does not go through
`parseCSV` (see the counterexample). -/
theorem c9_parseCSV_roundtrip (t : List (List String)) (h0 : t ≠ [])
    (h1 : ∀ r ∈ t, r ≠ []) (h2 : ∀ r ∈ t, ∀ f ∈ r, '\r' ∉ f.toList)
    (h3 : t.getLast? ≠ some [""]) :
    parseCSV (renderTable t) = t ∧
    (∀ text, mapHouseMargins text = mapHouseMarginsRows (parseCSV text)) ∧
    (∀ text, mapPresMargins text = mapPresMarginsRows (parseCSV text)) := by
  refine ⟨?_, fun text => rfl, fun text => rfl⟩
  rw [parseCSV, renderTable]
  have : (String.mk (renderTableChars t)).toList = renderTableChars t := rfl
  rw [this, parseCSVGo_table t h0 h1 h2 h3]
  simp

/-- Witness for C9 (amended) on a table with embedded quote, comma and
newline characters. -/
theorem c9_parseCSV_roundtrip_witness :
    (([["a", "b\"c"], ["d,e\nf", "g"]] : List (List String)) ≠ [] ∧
     (∀ r ∈ ([["a", "b\"c"], ["d,e\nf", "g"]] : List (List String)), r ≠ []) ∧
     (∀ r ∈ ([["a", "b\"c"], ["d,e\nf", "g"]] : List (List String)),
       ∀ f ∈ r, '\r' ∉ f.toList) ∧
     ([["a", "b\"c"], ["d,e\nf", "g"]] :
       List (List String)).getLast? ≠ some [""]) ∧
    parseCSV (renderTable [["a", "b\"c"], ["d,e\nf", "g"]]) =
      [["a", "b\"c"], ["d,e\nf", "g"]] :=
  ⟨⟨by decide, by decide, by decide, by decide⟩,
    (c9_parseCSV_roundtrip [["a", "b\"c"], ["d,e\nf", "g"]] (by decide)
      (by decide) (by decide) (by decide)).1⟩

/-- Counterexample to C9 as stated: the population parser does not honor
CSV quoting — on a data row whose first field is the quoted `"A,B"`, it
splits at the embedded comma and produces the key `"A-B"` (with a stray
quote character) mapped to 2020, whereas the quote-aware `parseCSV`
recovers the intended row `A,B | 2020 | 5`. -/
theorem c9_counterexample :
    parsePopulationCSV "state,fy,pop\n\"A,B\",2020,5" =
      [("\"A-B\"", some 2020)] ∧
    parseCSV "state,fy,pop\n\"A,B\",2020,5" =
      [["state", "fy", "pop"], ["A,B", "2020", "5"]] ∧
    parsePopulationCSV "state,fy,pop\n\"A,B\",2020,5" ≠
      [("A,B-2020", some 5)] := by
  refine ⟨rfl, ?_, by decide⟩
  simp +decide [parseCSV, parseCSVGo]

end Assignments606
